import Mathlib

/-!
Verification of the Terminal Inline Image Delivery Subsystem of `metcli`.

Shallow embedding conventions:
* Go strings are Lean `String`s; the handful of `strings` stdlib helpers
  used by the source (`ToLower`, `TrimSpace`, `Contains`) are embedded as
  executable Lean functions over `List Char` (ASCII case folding and ASCII
  whitespace, which covers every comparison the source performs, since all
  compared literals are ASCII).
* Go machine integers are `Nat`/`Int`; Go `float64` arithmetic is embedded
  over `ℚ` (all concrete values exercised here are exactly representable).
  `math.Round` (round half away from zero) is embedded as `goRound`, and
  the values `strconv.ParseFloat` can produce — NaN, signed infinities,
  finite numbers — as `GoFloat`, with IEEE comparison semantics.
* Writers (`*bufio.Writer`) are embedded by returning the list of strings
  the function writes; a nil writer is a `Bool` flag `outPresent = false`.
-/

namespace Metcli

/-- ASCII lower-casing of one character, as `strings.ToLower` acts on the
ASCII range (every literal the detector compares against is ASCII). -/
def lowerChar (c : Char) : Char :=
  if 'A' ≤ c ∧ c ≤ 'Z' then Char.ofNat (c.toNat + 32) else c

/-- Embedding of `strings.ToLower`. -/
def lowerStr (s : String) : String :=
  String.mk (s.data.map lowerChar)

/-- ASCII whitespace, the cases of `unicode.IsSpace` relevant to env values. -/
def isSpaceChar (c : Char) : Bool :=
  c = ' ' ∨ c = '\t' ∨ c = '\n' ∨ c = '\r'

/-- Embedding of `strings.TrimSpace`. -/
def trimStr (s : String) : String :=
  String.mk (((s.data.dropWhile isSpaceChar).reverse.dropWhile isSpaceChar).reverse)

/-- `containsSeq pat s = true` iff `pat` occurs as a contiguous run in `s`. -/
def containsSeq (pat : List Char) : List Char → Bool
  | [] => pat.isEmpty
  | c :: t => pat.isPrefixOf (c :: t) || containsSeq pat t

/-- Embedding of `strings.Contains`. -/
def strContains (s pat : String) : Bool :=
  containsSeq pat.data s.data

/-- The `Protocol` enumeration of `internal/inline/inline.go`. -/
inductive Protocol where
  | ProtocolNone
  | ProtocolKitty
  | ProtocolIterm
deriving DecidableEq, Repr

open Protocol

/-- Embedding of `detectInline` (`internal/inline/inline.go`).  The Go
`switch` on the override string is written as the equivalent
first-match if-chain. -/
def detectInline (getenv : String → String) : Protocol :=
  let override := lowerStr (trimStr (getenv "METCLI_INLINE"))
  if override = "kitty" then ProtocolKitty
  else if override = "iterm" ∨ override = "iterm2" then ProtocolIterm
  else if override = "none" ∨ override = "off" ∨ override = "false" ∨ override = "0" then
    ProtocolNone
  else if ¬(override = "" ∨ override = "auto") then ProtocolNone
  else if trimStr (getenv "KITTY_WINDOW_ID") ≠ "" then ProtocolKitty
  else
    let termProgram := lowerStr (getenv "TERM_PROGRAM")
    if strContains termProgram "ghostty" then ProtocolKitty
    else if strContains termProgram "iterm" ∨ trimStr (getenv "ITERM_SESSION_ID") ≠ "" then
      ProtocolIterm
    else if strContains termProgram "apple_terminal" then ProtocolNone
    else
      let term := lowerStr (getenv "TERM")
      if strContains term "xterm-kitty" ∨ strContains term "ghostty" then ProtocolKitty
      else ProtocolNone

/-- Rule 1 of §4.1: the explicit `METCLI_INLINE` override. -/
def overrideRule (getenv : String → String) : Option Protocol :=
  let o := lowerStr (trimStr (getenv "METCLI_INLINE"))
  if o = "kitty" then some ProtocolKitty
  else if o = "iterm" ∨ o = "iterm2" then some ProtocolIterm
  else if o = "none" ∨ o = "off" ∨ o = "false" ∨ o = "0" then some ProtocolNone
  else if ¬(o = "" ∨ o = "auto") then some ProtocolNone
  else none

/-- Rule 2 of §4.1: a non-empty `KITTY_WINDOW_ID`. -/
def windowIdRule (getenv : String → String) : Option Protocol :=
  if trimStr (getenv "KITTY_WINDOW_ID") ≠ "" then some ProtocolKitty else none

/-- Rule 3 of §4.1: the `TERM_PROGRAM` / `ITERM_SESSION_ID` heuristics. -/
def termProgramRule (getenv : String → String) : Option Protocol :=
  let tp := lowerStr (getenv "TERM_PROGRAM")
  if strContains tp "ghostty" then some ProtocolKitty
  else if strContains tp "iterm" ∨ trimStr (getenv "ITERM_SESSION_ID") ≠ "" then
    some ProtocolIterm
  else if strContains tp "apple_terminal" then some ProtocolNone
  else none

/-- Rule 4 of §4.1: the `TERM` identifier. -/
def termRule (getenv : String → String) : Option Protocol :=
  let t := lowerStr (getenv "TERM")
  if strContains t "xterm-kitty" ∨ strContains t "ghostty" then some ProtocolKitty else none

/-- First hit in an ordered rule list. -/
def firstSome : List (Option α) → Option α
  | [] => none
  | some a :: _ => some a
  | none :: t => firstSome t

/-- The spec's §4.1 detector: the ordered rule list, first match wins,
defaulting to `ProtocolNone`. -/
def specDetect (getenv : String → String) : Protocol :=
  (firstSome
    [overrideRule getenv, windowIdRule getenv, termProgramRule getenv, termRule getenv]).getD
    ProtocolNone

/-- Concrete environment with a conflicting override / window id, used for
witness instantiation. -/
def envOverrideNone : String → String := fun k =>
  if k = "METCLI_INLINE" then "none" else if k = "KITTY_WINDOW_ID" then "7" else ""

/-! ### Cell geometry (`estimateRows`, `cmd/ig-cookies/main.go`) -/

/-- Embedding of Go's `math.Round`: round half away from zero. -/
def goRound (q : ℚ) : Int :=
  if 0 ≤ q then ⌊q + 1/2⌋ else -⌊-q + 1/2⌋

/-- Embedding of `estimateRows` (`cmd/ig-cookies/main.go`); `float64`
arithmetic is embedded over `ℚ`. -/
def estimateRows (colsCells widthPx heightPx : Int) (cellAspect : ℚ) : Int :=
  if colsCells ≤ 0 ∨ widthPx ≤ 0 ∨ heightPx ≤ 0 then 0
  else
    let aspect : ℚ := (heightPx : ℚ) / (widthPx : ℚ)
    let rows : ℚ := (colsCells : ℚ) * aspect * cellAspect
    let rows2 : ℚ := if rows < 1 then 1 else rows
    goRound rows2

/-! ### Cell aspect ratio override (`internal/inline`, `CellAspectRatio`) -/

/-- Numeric value of an ASCII digit, `none` for a non-digit. -/
def digVal (c : Char) : Option Nat :=
  if '0' ≤ c ∧ c ≤ '9' then some (c.toNat - 48) else none

/-- Every character is an ASCII digit. -/
def allDigits (cs : List Char) : Bool :=
  cs.all fun c => (digVal c).isSome

/-- Decimal value of a digit run. -/
def natVal (cs : List Char) : Nat :=
  cs.foldl (fun acc c => 10 * acc + ((digVal c).getD 0)) 0

/-- Mantissa of a decimal literal: digits with an optional single dot,
at least one digit present; value is `mant / 10 ^ frac`. -/
def parseMantRep (cs : List Char) : Option (Nat × Nat) :=
  match cs.splitOn '.' with
  | [ip] => if ip ≠ [] ∧ allDigits ip then some (natVal ip, 0) else none
  | [ip, fp] =>
    if (ip ≠ [] ∨ fp ≠ []) ∧ allDigits ip ∧ allDigits fp then
      some (natVal ip * 10 ^ fp.length + natVal fp, fp.length)
    else none
  | _ => none

/-- Numeric value of a lower-case hexadecimal digit. -/
def hexDigVal (c : Char) : Option Nat :=
  if '0' ≤ c ∧ c ≤ '9' then some (c.toNat - 48)
  else if 'a' ≤ c ∧ c ≤ 'f' then some (c.toNat - 87)
  else none

/-- Every character is a hexadecimal digit. -/
def allHexDigits (cs : List Char) : Bool :=
  cs.all fun c => (hexDigVal c).isSome

/-- Value of a hexadecimal digit run. -/
def hexNatVal (cs : List Char) : Nat :=
  cs.foldl (fun acc c => 16 * acc + ((hexDigVal c).getD 0)) 0

/-- Mantissa of a hexadecimal literal: hex digits with an optional single
dot, at least one digit present; value is `mant / 16 ^ frac`. -/
def parseHexMantRep (cs : List Char) : Option (Nat × Nat) :=
  match cs.splitOn '.' with
  | [ip] => if ip ≠ [] ∧ allHexDigits ip then some (hexNatVal ip, 0) else none
  | [ip, fp] =>
    if (ip ≠ [] ∨ fp ≠ []) ∧ allHexDigits ip ∧ allHexDigits fp then
      some (hexNatVal ip * 16 ^ fp.length + hexNatVal fp, fp.length)
    else none
  | _ => none

/-- Optional leading sign: returns (isNegative, rest). -/
def splitSign (cs : List Char) : Bool × List Char :=
  match cs with
  | '-' :: t => (true, t)
  | '+' :: t => (false, t)
  | _ => (false, cs)

/-- A parsed `strconv.ParseFloat` input: `NaN`, a signed infinity, or a
decimal / hexadecimal mantissa (digits read as one integer) with its
fraction-digit count and exponent. -/
inductive FloatRep where
  | nan
  | inf (neg : Bool)
  | dec (neg : Bool) (mant frac : Nat) (eneg : Bool) (expo : Nat)
  | hex (neg : Bool) (mant frac : Nat) (eneg : Bool) (expo : Nat)
deriving DecidableEq, Repr

/-- The special-value recognizer of `strconv` (`special` in atof.go):
`nan` unsigned, `inf` / `infinity` with an optional sign, all already
lower-cased here (the source matches case-insensitively). -/
def parseSpecialRep (cs : List Char) : Option FloatRep :=
  match cs with
  | '-' :: t =>
    if t = "inf".data ∨ t = "infinity".data then some (.inf true) else none
  | '+' :: t =>
    if t = "inf".data ∨ t = "infinity".data then some (.inf false) else none
  | _ =>
    if cs = "nan".data then some .nan
    else if cs = "inf".data ∨ cs = "infinity".data then some (.inf false) else none

/-- Port of `strconv`'s `underscoreOK` scan: `saw` tracks the last class
seen (`^` start, `0` digit or base prefix, `_` underscore, `!` other). -/
def underscoreLoop (hex : Bool) (saw : Char) : List Char → Bool
  | [] => saw ≠ '_'
  | c :: t =>
    if ('0' ≤ c ∧ c ≤ '9') ∨ (hex ∧ 'a' ≤ c ∧ c ≤ 'f') then underscoreLoop hex '0' t
    else if c = '_' then
      if saw = '0' then underscoreLoop hex '_' t else false
    else if saw = '_' then false
    else underscoreLoop hex '!' t

/-- Embedding of `strconv.underscoreOK`: underscores may sit only between
digits or between a base prefix and a digit, and may not end the number. -/
def underscoreOK (cs : List Char) : Bool :=
  let cs1 := (splitSign cs).2
  match cs1 with
  | '0' :: p :: t =>
    if p = 'x' ∨ p = 'b' ∨ p = 'o' then underscoreLoop (p == 'x') '0' t
    else underscoreLoop false '^' cs1
  | _ => underscoreLoop false '^' cs1

/-- The number grammar of `strconv.ParseFloat` on a lower-cased,
underscore-free input: an optional sign, then either a `0x` hexadecimal
mantissa with its mandatory `p` exponent, or a decimal mantissa with an
optional `e` exponent. -/
def parseNumRep (cs : List Char) : Option FloatRep :=
  let sr := splitSign cs
  let neg := sr.1
  match sr.2 with
  | '0' :: 'x' :: rest =>
    (match rest.splitOn 'p' with
     | [m, ex] =>
       (parseHexMantRep m).bind fun mf =>
         let esr := splitSign ex
         if esr.2 ≠ [] ∧ allDigits esr.2 then
           some (.hex neg mf.1 mf.2 esr.1 (natVal esr.2))
         else none
     | _ => none)
  | body =>
    (match body.splitOn 'e' with
     | [m] => (parseMantRep m).map fun mf => .dec neg mf.1 mf.2 false 0
     | [m, ex] =>
       (parseMantRep m).bind fun mf =>
         let esr := splitSign ex
         if esr.2 ≠ [] ∧ allDigits esr.2 then
           some (.dec neg mf.1 mf.2 esr.1 (natVal esr.2))
         else none
     | _ => none)

/-- Embedding of `strconv.ParseFloat`'s accepted grammar: special values
first, then (after underscore validation and stripping) the number
grammar, everything case-insensitive as in the source. -/
def parseFloatRep (s : String) : Option FloatRep :=
  let cs := s.data.map lowerChar
  match parseSpecialRep cs with
  | some r => some r
  | none =>
    if cs.contains '_' then
      if underscoreOK cs then parseNumRep (cs.filter fun c => c ≠ '_') else none
    else parseNumRep cs

/-- A Go `float64` as observed by `CellAspectRatio`: NaN, a signed
infinity, or a finite value.  Finite literal values are taken exactly in
`ℚ`; the float64 rounding of a parsed literal is not modelled. -/
inductive GoFloat where
  | nan
  | inf (neg : Bool)
  | fin (val : ℚ)
deriving DecidableEq, Repr

/-- IEEE semantics of `value < q` for finite `q`: false on NaN, the sign
on an infinity. -/
def GoFloat.ltQ : GoFloat → ℚ → Bool
  | .nan, _ => false
  | .inf neg, _ => neg
  | .fin v, q => decide (v < q)

/-- IEEE semantics of `value > q` for finite `q`: false on NaN. -/
def GoFloat.gtQ : GoFloat → ℚ → Bool
  | .nan, _ => false
  | .inf neg, _ => !neg
  | .fin v, q => decide (q < v)

/-- Exact value of a parsed literal: decimal `± mant/10^frac · 10^±expo`,
hexadecimal `± mant/16^frac · 2^±expo`. -/
def floatOfRep : FloatRep → GoFloat
  | .nan => .nan
  | .inf neg => .inf neg
  | .dec neg mant frac eneg expo =>
    .fin ((if neg then -1 else 1) * (mant : ℚ) / 10 ^ frac *
      (if eneg then ((10 : ℚ) ^ expo)⁻¹ else 10 ^ expo))
  | .hex neg mant frac eneg expo =>
    .fin ((if neg then -1 else 1) * (mant : ℚ) / 16 ^ frac *
      (if eneg then ((2 : ℚ) ^ expo)⁻¹ else 2 ^ expo))

/-- Embedding of `strconv.ParseFloat`. -/
def parseGoFloat (s : String) : Option GoFloat :=
  (parseFloatRep s).map floatOfRep

/-- Embedding of `CellAspectRatio` (`internal/inline`): the function takes
the raw environment value (the source reads it via `os.Getenv`) and
returns the Go float it produces (`.fin defaultValue` on fallback).  The
source's range-overflow errors of `ParseFloat` (±Inf with `ErrRange`)
take the `err != nil` fallback; in the model the corresponding huge
finite values fail the range check with the same outcome.  The float
constant `0.1` is modelled as the exact `1/10`. -/
def CellAspectRatio (raw : String) (defaultValue : ℚ) : GoFloat :=
  let t := trimStr raw
  if t = "" then .fin defaultValue
  else
    match parseGoFloat t with
    | none => .fin defaultValue
    | some value =>
      if value.ltQ (1/10) || value.gtQ 2 then .fin defaultValue else value

/-! ### Base64 and the Kitty encoder (`internal/inline/kitty.go`) -/

/-- The standard base64 alphabet. -/
def b64Table : List Char :=
  "ABCDEFGHIJKLMNOPQRSTUVWXYZabcdefghijklmnopqrstuvwxyz0123456789+/".data

/-- Alphabet lookup for a sextet. -/
def b64Char (n : Nat) : Char :=
  b64Table.getD n 'A'

/-- Embedding of `base64.StdEncoding.EncodeToString` over byte lists
(bytes as `Nat < 256`). -/
def base64Encode : List Nat → List Char
  | [] => []
  | [a] => [b64Char (a / 4), b64Char (a % 4 * 16), '=', '=']
  | [a, b] => [b64Char (a / 4), b64Char (a % 4 * 16 + b / 16), b64Char (b % 16 * 4), '=']
  | a :: b :: c :: rest =>
    b64Char (a / 4) :: b64Char (a % 4 * 16 + b / 16) :: b64Char (b % 16 * 4 + c / 64) ::
      b64Char (c % 64) :: base64Encode rest

/-- The `kittyData` record of `internal/inline/kitty.go`. -/
structure KittyData where
  Action : String
  ID : Nat
  Data : List Nat
  Cols : Int
  Rows : Int
  NoCursor : Bool

/-- One emitted Kitty chunk: its escape-sequence parameter list, its
more-chunks flag, and its payload slice of the base64 text. -/
structure KittyChunk where
  params : List String
  more : Nat
  payload : List Char
deriving DecidableEq, Repr

/-- The Kitty protocol chunk size of `sendKittyData`. -/
def kittyChunkSize : Nat := 4096

/-- The full parameter set carried by the first chunk of `sendKittyData`. -/
def kittyFirstParams (d : KittyData) (more : Nat) : List String :=
  ["a=" ++ d.Action, "f=100", "i=" ++ toString d.ID, "m=" ++ toString more, "q=2"] ++
    (if d.Cols > 0 then ["c=" ++ toString d.Cols] else []) ++
    (if d.Rows > 0 then ["r=" ++ toString d.Rows] else []) ++
    (if d.NoCursor then ["C=1"] else [])

/-- The chunking loop of `sendKittyData`, producing the emitted chunks in
order.  `first` tracks the Go `first` flag. -/
def kittyChunkLoop (d : KittyData) : Bool → List Char → List KittyChunk
  | _, [] => []
  | first, ch :: t =>
    let encoded := ch :: t
    let chunk := encoded.take kittyChunkSize
    let rest := encoded.drop kittyChunkSize
    let more := if rest.length > 0 then 1 else 0
    let params := if first then kittyFirstParams d more else ["m=" ++ toString more]
    ⟨params, more, chunk⟩ :: kittyChunkLoop d false rest
termination_by _ encoded => encoded.length
decreasing_by
  simp only [kittyChunkSize, List.length_drop, List.length_cons]
  omega

/-- The escape sequence written for one chunk (`ESC _G params ; payload ESC \`). -/
def renderChunk (ch : KittyChunk) : String :=
  "\x1b_G" ++ String.intercalate "," ch.params ++ ";" ++ String.mk ch.payload ++ "\x1b\\"

/-- Embedding of `sendKittyData`: the list of escape sequences written. -/
def sendKittyData (d : KittyData) : List String :=
  (kittyChunkLoop d true (base64Encode d.Data)).map renderChunk

/-- Embedding of `SendKittyPNG`; `outPresent = false` models a nil
`*bufio.Writer`, and the result is the list of writes performed. -/
def SendKittyPNG (outPresent : Bool) (id : Nat) (png : List Nat) (cols rows : Int) :
    List String :=
  if outPresent = false ∨ png = [] then []
  else sendKittyData ⟨"T", id, png, cols, rows, true⟩

/-! ### The iTerm encoder (`SendItermInline`) -/

/-- The `ItermFile` record. -/
structure ItermFile where
  Name : String
  Data : List Nat
  WidthCells : Int
  HeightCells : Int
  Stretch : Bool

/-- Embedding of Go's `path.Base`. -/
def pathBase (s : String) : String :=
  if s = "" then "."
  else
    let stripped := (s.data.reverse.dropWhile (fun c => c = '/')).reverse
    let base := (stripped.reverse.takeWhile (fun c => c ≠ '/')).reverse
    if base = [] then "/" else String.mk base

/-- The single escape sequence `SendItermInline` writes for non-empty data. -/
def itermSequence (f : ItermFile) : String :=
  let name0 := trimStr f.Name
  let name1 := if name0 = "" then "metcli.bin" else name0
  let name := pathBase name1
  let preserveAspectRatio : Nat := if f.Stretch then 0 else 1
  let args :=
    ["name=" ++ String.mk (base64Encode (name.data.map Char.toNat)),
      "size=" ++ toString f.Data.length,
      "inline=1",
      "preserveAspectRatio=" ++ toString preserveAspectRatio] ++
    (if f.WidthCells > 0 then ["width=" ++ toString f.WidthCells] else []) ++
    (if f.HeightCells > 0 then ["height=" ++ toString f.HeightCells] else [])
  "\x1b]1337;File=" ++ String.intercalate ";" args ++ ":" ++
    String.mk (base64Encode f.Data) ++ "\x1b\\"

/-- Embedding of `SendItermInline` (`internal/inline`): list of writes;
`outPresent = false` models a nil writer. -/
def SendItermInline (outPresent : Bool) (f : ItermFile) : List String :=
  if outPresent = false ∨ f.Data = [] then [] else [itermSequence f]

/-! ### The compositor geometry (`buildGridPNG`, `cmd/ig-cookies/main.go`) -/

/-- Embedding of `buildGridPNG`'s observable geometry: canvas width,
canvas height, and the pixel origin of every tile in input order.
`int(math.Ceil(float64(N)/float64(C)))` is embedded as exact natural
ceiling division.  Fails on an empty image list exactly as the source. -/
def buildGridPNG (images : List α) (cols thumbPx paddingPx : Nat) :
    Except String (Nat × Nat × List (Nat × Nat)) :=
  if images.length = 0 then .error "no images"
  else
    let rows := (images.length + cols - 1) / cols
    let width := cols * thumbPx + (cols - 1) * paddingPx
    let height := rows * thumbPx + (rows - 1) * paddingPx
    .ok (width, height,
      (List.range images.length).map fun i =>
        (i % cols * (thumbPx + paddingPx), i / cols * (thumbPx + paddingPx)))

/-! ### Pagination and the render driver loop (`renderGrid`) -/

/-- The page slices of the `renderGrid` loop
(`for start := 0; start < len(items); start += pageSize`).
The Go loop does not terminate for `pageSize = 0`; the model returns `[]`
there, and every claim constrains `pageSize ≥ 1`. -/
def paginate (ps : Nat) : List α → List (List α)
  | [] => []
  | x :: t =>
    if _h : ps = 0 then []
    else (x :: t).take ps :: paginate ps ((x :: t).drop ps)
termination_by items => items.length
decreasing_by
  simp only [List.length_drop, List.length_cons]
  omega

/-- Newline count written by `advanceCursor`. -/
def advanceCursorNewlines (rows : Int) : Nat :=
  (if rows < 1 then 1 else rows).toNat + 1

/-- The observable outcome of rendering one page. -/
structure RenderedPage where
  pageCols : Nat
  widthPx : Nat
  heightPx : Nat
  colsCells : Nat
  rowsCells : Int
  newlines : Nat
deriving DecidableEq, Repr

/-- One iteration of the `renderGrid` page loop: item count of the slice,
count of successfully decoded images, and the transmission made
(`none` = the page was skipped, nothing written). -/
structure PageOut where
  numItems : Nat
  numImages : Nat
  rendered : Option RenderedPage
deriving DecidableEq, Repr

/-- The body of the `renderGrid` loop for one page slice.  `decode`
models `DownloadImage` + `image.Decode` (`none` = the item is dropped). -/
def processPage (gridCols thumbCols thumbPx paddingPx : Nat) (aspect : ℚ)
    (decode : α → Option β) (pageItems : List α) : PageOut :=
  let images := pageItems.filterMap decode
  if images.length = 0 then ⟨pageItems.length, 0, none⟩
  else
    let pageCols := if gridCols > images.length then images.length else gridCols
    match buildGridPNG images pageCols thumbPx paddingPx with
    | .error _ => ⟨pageItems.length, images.length, none⟩
    | .ok (w, h, _) =>
      let colsCells := pageCols * thumbCols
      let rowsCells := estimateRows colsCells w h aspect
      ⟨pageItems.length, images.length,
        some ⟨pageCols, w, h, colsCells, rowsCells, advanceCursorNewlines rowsCells⟩⟩

/-- The `renderGrid` page loop (lines 561–618 of `cmd/ig-cookies/main.go`)
after option resolution: paginate, then process each page in order. -/
def renderGridLoop (gridCols thumbCols thumbPx paddingPx : Nat) (aspect : ℚ)
    (decode : α → Option β) (items : List α) (ps : Nat) : List PageOut :=
  (paginate ps items).map (processPage gridCols thumbCols thumbPx paddingPx aspect decode)

/-- A decoder that fails on all but item `0`, for counterexample runs. -/
def decodeFirstOnly : Nat → Option Unit := fun n => if n = 0 then some () else none

/-! ## Theorems -/

/-- **C1.** For every environment, `detectInline` returns exactly the
protocol given by the ordered rule list of §4.1 (override first, then
`KITTY_WINDOW_ID`, then `TERM_PROGRAM`/`ITERM_SESSION_ID`, then `TERM`,
else None); in particular an override of `none` beats a set
`KITTY_WINDOW_ID`. -/
theorem detectInline_matches_rule_list :
    (∀ g : String → String, detectInline g = specDetect g) ∧
    (∀ g : String → String,
      lowerStr (trimStr (g "METCLI_INLINE")) = "none" →
      trimStr (g "KITTY_WINDOW_ID") ≠ "" →
      detectInline g = Protocol.ProtocolNone) := by
  constructor
  · intro g
    unfold detectInline specDetect overrideRule windowIdRule termProgramRule termRule
    simp only []
    split_ifs <;> simp [firstSome]
  · intro g h _
    unfold detectInline
    rw [h]
    simp

/-- Witness for C1: a concrete environment with `METCLI_INLINE=none` and
`KITTY_WINDOW_ID=7` detects no protocol. -/
theorem detectInline_matches_rule_list_witness :
    detectInline envOverrideNone = Protocol.ProtocolNone :=
  detectInline_matches_rule_list.2 envOverrideNone (by decide) (by decide)

/-- The chunk count of the Kitty loop is the ceiling of the text length
over the 4096-byte chunk size. -/
theorem kittyChunkLoop_length (d : KittyData) (first : Bool) (enc : List Char) :
    (kittyChunkLoop d first enc).length = (enc.length + 4095) / 4096 := by
  suffices h : ∀ (n : Nat) (first : Bool) (enc : List Char), enc.length = n →
      (kittyChunkLoop d first enc).length = (enc.length + 4095) / 4096 from
    h enc.length first enc rfl
  intro n
  induction n using Nat.strong_induction_on with
  | _ n ihn =>
    intro first enc hn
    cases enc with
    | nil => simp [kittyChunkLoop]
    | cons ch t =>
      subst hn
      rw [kittyChunkLoop]
      simp only [List.length_cons]
      rw [ihn ((ch :: t).drop kittyChunkSize).length
        (by simp only [List.length_drop, List.length_cons, kittyChunkSize]; omega)
        false ((ch :: t).drop kittyChunkSize) rfl]
      simp only [List.length_drop, List.length_cons, kittyChunkSize]
      omega

/-- Concatenating the chunk payloads reconstructs the base64 text. -/
theorem kittyChunkLoop_flatten (d : KittyData) (first : Bool) (enc : List Char) :
    ((kittyChunkLoop d first enc).map KittyChunk.payload).flatten = enc := by
  suffices h : ∀ (n : Nat) (first : Bool) (enc : List Char), enc.length = n →
      ((kittyChunkLoop d first enc).map KittyChunk.payload).flatten = enc from
    h enc.length first enc rfl
  intro n
  induction n using Nat.strong_induction_on with
  | _ n ihn =>
    intro first enc hn
    cases enc with
    | nil => simp [kittyChunkLoop]
    | cons ch t =>
      subst hn
      rw [kittyChunkLoop]
      simp only [List.map_cons, List.flatten_cons]
      rw [ihn ((ch :: t).drop kittyChunkSize).length
        (by simp only [List.length_drop, List.length_cons, kittyChunkSize]; omega)
        false ((ch :: t).drop kittyChunkSize) rfl]
      exact List.take_append_drop _ _

/-- The more-chunks flags are `1` on every chunk except the last, `0` on
the last. -/
theorem kittyChunkLoop_more (d : KittyData) (first : Bool) (enc : List Char)
    (hne : enc ≠ []) :
    (kittyChunkLoop d first enc).map KittyChunk.more =
      List.replicate ((kittyChunkLoop d first enc).length - 1) 1 ++ [0] := by
  suffices h : ∀ (n : Nat) (first : Bool) (enc : List Char), enc.length = n → enc ≠ [] →
      (kittyChunkLoop d first enc).map KittyChunk.more =
        List.replicate ((kittyChunkLoop d first enc).length - 1) 1 ++ [0] from
    h enc.length first enc rfl hne
  intro n
  induction n using Nat.strong_induction_on with
  | _ n ihn =>
    intro first enc hn hne
    cases enc with
    | nil => simp at hne
    | cons ch t =>
      subst hn
      rw [kittyChunkLoop]
      by_cases hrest : (ch :: t).drop kittyChunkSize = []
      · rw [hrest]
        simp [kittyChunkLoop]
      · have hlen : 1 ≤ (kittyChunkLoop d false ((ch :: t).drop kittyChunkSize)).length := by
          rw [kittyChunkLoop_length]
          have := List.length_pos.mpr hrest
          omega
        have hrec := ihn ((ch :: t).drop kittyChunkSize).length
          (by simp only [List.length_drop, List.length_cons, kittyChunkSize]; omega)
          false ((ch :: t).drop kittyChunkSize) rfl hrest
        simp only [List.map_cons, List.length_cons, hrec]
        rw [if_pos (by simpa using List.length_pos.mpr hrest)]
        rw [Nat.add_sub_cancel]
        have hsplit : (kittyChunkLoop d false ((ch :: t).drop kittyChunkSize)).length =
            ((kittyChunkLoop d false ((ch :: t).drop kittyChunkSize)).length - 1) + 1 := by
          omega
        rw [hsplit, List.replicate_succ]
        simp

/-- Every chunk produced with the first-flag already consumed carries only
the more-chunks parameter. -/
theorem kittyChunkLoop_false_params (d : KittyData) (enc : List Char) :
    ∀ c ∈ kittyChunkLoop d false enc, c.params = ["m=" ++ toString c.more] := by
  suffices h : ∀ (n : Nat) (enc : List Char), enc.length = n →
      ∀ c ∈ kittyChunkLoop d false enc, c.params = ["m=" ++ toString c.more] from
    h enc.length enc rfl
  intro n
  induction n using Nat.strong_induction_on with
  | _ n ihn =>
    intro enc hn c hc
    cases enc with
    | nil => simp [kittyChunkLoop] at hc
    | cons ch t =>
      subst hn
      rw [kittyChunkLoop] at hc
      simp only [List.mem_cons] at hc
      rcases hc with hc | hc
      · subst hc
        simp
      · exact ihn ((ch :: t).drop kittyChunkSize).length
          (by simp only [List.length_drop, List.length_cons, kittyChunkSize]; omega)
          ((ch :: t).drop kittyChunkSize) rfl c hc

/-- The first emitted chunk carries the full parameter set. -/
theorem kittyChunkLoop_head_params (d : KittyData) (enc : List Char) :
    ∀ hd, (kittyChunkLoop d true enc).head? = some hd →
      hd.params = kittyFirstParams d hd.more := by
  intro hd hhd
  cases enc with
  | nil => simp [kittyChunkLoop] at hhd
  | cons ch t =>
    rw [kittyChunkLoop] at hhd
    simp only [List.head?_cons, Option.some.injEq] at hhd
    rw [← hhd]
    simp

/-- Base64 of a non-empty byte list is non-empty. -/
theorem base64Encode_ne_nil (bs : List Nat) (h : bs ≠ []) : base64Encode bs ≠ [] := by
  match bs with
  | [] => exact absurd rfl h
  | [a] => simp [base64Encode]
  | [a, b] => simp [base64Encode]
  | a :: b :: c :: rest => simp [base64Encode]

/-- **C2.** For every non-empty payload, the Kitty encoder emits exactly
`ceil(L/4096)` chunks of the base64 text of length `L`; every chunk but
the last carries `m=1` and the last `m=0`; the first chunk carries the
full parameter set, later chunks only the `m` flag; and the chunk
payloads concatenate back to the base64 text. -/
theorem sendKittyData_chunk_protocol (d : KittyData) (hne : d.Data ≠ []) :
    (kittyChunkLoop d true (base64Encode d.Data)).length =
      ((base64Encode d.Data).length + 4095) / 4096 ∧
    (base64Encode d.Data).length ≤
      (kittyChunkLoop d true (base64Encode d.Data)).length * 4096 ∧
    (kittyChunkLoop d true (base64Encode d.Data)).length * 4096 <
      (base64Encode d.Data).length + 4096 ∧
    (sendKittyData d).length = ((base64Encode d.Data).length + 4095) / 4096 ∧
    (kittyChunkLoop d true (base64Encode d.Data)).map KittyChunk.more =
      List.replicate ((kittyChunkLoop d true (base64Encode d.Data)).length - 1) 1 ++ [0] ∧
    ((kittyChunkLoop d true (base64Encode d.Data)).map KittyChunk.payload).flatten =
      base64Encode d.Data ∧
    (∀ hd, (kittyChunkLoop d true (base64Encode d.Data)).head? = some hd →
      hd.params = kittyFirstParams d hd.more) ∧
    (kittyChunkLoop d true (base64Encode d.Data)).tail.map KittyChunk.params =
      (kittyChunkLoop d true (base64Encode d.Data)).tail.map
        fun c => ["m=" ++ toString c.more] := by
  have hene := base64Encode_ne_nil d.Data hne
  have hL : 1 ≤ (base64Encode d.Data).length := List.length_pos.mpr hene
  have hlen := kittyChunkLoop_length d true (base64Encode d.Data)
  refine ⟨hlen, ?_, ?_, ?_, kittyChunkLoop_more d true _ hene,
    kittyChunkLoop_flatten d true _, kittyChunkLoop_head_params d _, ?_⟩
  · rw [hlen]
    omega
  · rw [hlen]
    omega
  · rw [sendKittyData, List.length_map]
    exact hlen
  · have htail : ∀ c ∈ (kittyChunkLoop d true (base64Encode d.Data)).tail,
        c.params = ["m=" ++ toString c.more] := by
      cases henc : base64Encode d.Data with
      | nil => simp [kittyChunkLoop]
      | cons ch t =>
        rw [kittyChunkLoop]
        exact kittyChunkLoop_false_params d _
    exact List.map_congr_left htail

/-- Witness for C2: the chunk count at a concrete three-byte payload. -/
theorem sendKittyData_chunk_protocol_witness :
    (kittyChunkLoop ⟨"T", 1, [137, 80, 78], 3, 2, true⟩ true
        (base64Encode [137, 80, 78])).length =
      ((base64Encode [137, 80, 78]).length + 4095) / 4096 :=
  (sendKittyData_chunk_protocol ⟨"T", 1, [137, 80, 78], 3, 2, true⟩ (by decide)).1

/-- **C3.** For every non-empty image list and columns `C >= 1`, the
compositor canvas is `C*thumbPx + (C-1)*padding` wide and
`rows*thumbPx + (rows-1)*padding` tall with `rows = ceil(N/C)`
(characterized by `N <= rows*C < N + C`), and image `i` is placed at
`((i mod C)*(thumbPx+padding), (i div C)*(thumbPx+padding))` in input
order. -/
theorem buildGridPNG_geometry {a : Type} (images : List a) (cols thumbPx paddingPx : Nat)
    (hne : images ≠ []) (hcols : 1 ≤ cols) :
    ∃ rows,
      buildGridPNG images cols thumbPx paddingPx =
        .ok (cols * thumbPx + (cols - 1) * paddingPx,
          rows * thumbPx + (rows - 1) * paddingPx,
          (List.range images.length).map fun i =>
            (i % cols * (thumbPx + paddingPx), i / cols * (thumbPx + paddingPx))) ∧
      images.length ≤ rows * cols ∧ rows * cols < images.length + cols := by
  have hN : 1 ≤ images.length := List.length_pos.mpr hne
  refine ⟨(images.length + cols - 1) / cols, ?_, ?_, ?_⟩
  · unfold buildGridPNG
    rw [if_neg (by omega)]
  · have hm := Nat.div_add_mod (images.length + cols - 1) cols
    have hmlt : (images.length + cols - 1) % cols < cols := Nat.mod_lt _ (by omega)
    rw [mul_comm]
    omega
  · have hm := Nat.div_add_mod (images.length + cols - 1) cols
    have hmlt : (images.length + cols - 1) % cols < cols := Nat.mod_lt _ (by omega)
    rw [mul_comm]
    omega

/-- Witness for C3: five tiles in two columns. -/
theorem buildGridPNG_geometry_witness :
    ∃ rows,
      buildGridPNG [(), (), (), (), ()] 2 128 4 =
        .ok (2 * 128 + (2 - 1) * 4, rows * 128 + (rows - 1) * 4,
          (List.range ([(), (), (), (), ()] : List Unit).length).map fun i =>
            (i % 2 * (128 + 4), i / 2 * (128 + 4))) ∧
      ([(), (), (), (), ()] : List Unit).length ≤ rows * 2 ∧
      rows * 2 < ([(), (), (), (), ()] : List Unit).length + 2 :=
  buildGridPNG_geometry [(), (), (), (), ()] 2 128 4 (by decide) (by decide)

/-- **C4.** The render-driver pagination is a consecutive-slice partition:
page `k` is `(items.drop (k*ps)).take ps` and the pages concatenate back
to the original list, for every `ps >= 1`. -/
theorem renderGrid_pagination_partition {a : Type} (ps : Nat) (hps : 1 ≤ ps)
    (items : List a) :
    (paginate ps items).flatten = items ∧
    ∀ k, k < (paginate ps items).length →
      (paginate ps items)[k]? = some ((items.drop (k * ps)).take ps) := by
  constructor
  · induction items using paginate.induct ps with
    | case1 => simp [paginate]
    | case2 x t h => omega
    | case3 x t h ih =>
      rw [paginate, dif_neg h]
      simp only [List.flatten_cons, ih]
      exact List.take_append_drop ps (x :: t)
  · have hget : ∀ (k : Nat) (l : List a), k < (paginate ps l).length →
        (paginate ps l)[k]? = some ((l.drop (k * ps)).take ps) := by
      intro k
      induction k with
      | zero =>
        intro l hk
        cases l with
        | nil => simp [paginate] at hk
        | cons x t =>
          rw [paginate, dif_neg (by omega)]
          simp
      | succ k ih =>
        intro l hk
        cases l with
        | nil => simp [paginate] at hk
        | cons x t =>
          rw [paginate, dif_neg (by omega)] at hk ⊢
          simp only [List.length_cons, List.getElem?_cons_succ] at hk ⊢
          rw [ih ((x :: t).drop ps) (by simpa using hk)]
          rw [List.drop_drop]
          ring_nf
    exact fun k => hget k items

/-- Witness for C4: page size two over a five-element list. -/
theorem renderGrid_pagination_partition_witness :
    (paginate 2 [10, 20, 30, 40, 50]).flatten = [10, 20, 30, 40, 50] ∧
    ∀ k, k < (paginate 2 ([10, 20, 30, 40, 50] : List Nat)).length →
      (paginate 2 ([10, 20, 30, 40, 50] : List Nat))[k]? =
        some (([10, 20, 30, 40, 50].drop (k * 2)).take 2) :=
  renderGrid_pagination_partition 2 (by decide) [10, 20, 30, 40, 50]

/-- Counterexample for C5 as stated: the spec's worked example claims
`estimateRows(10, 1000, 500, 0.5) = round(2.5) = 2`, but `math.Round`
rounds half away from zero, so the code returns `3`. -/
theorem estimateRows_round_cex : estimateRows 10 1000 500 (1/2) ≠ 2 := by
  unfold estimateRows goRound
  norm_num

/-- **C5 (amended).** For positive dimensions and a non-negative aspect,
`estimateRows` returns `colsCells * (heightPx/widthPx) * cellAspect`
rounded half away from zero and floored at 1; it returns 0 when any
dimension is non-positive.  The spec's worked example evaluates to `3`
(not `2`), and the sub-1 floor example evaluates to `1`. -/
theorem estimateRows_round_half_away :
    (∀ (cols w h : Int) (ca : ℚ), 0 < cols → 0 < w → 0 < h → 0 ≤ ca →
      estimateRows cols w h ca = max 1 (goRound ((cols : ℚ) * ((h : ℚ) / (w : ℚ)) * ca))) ∧
    (∀ (cols w h : Int) (ca : ℚ), cols ≤ 0 ∨ w ≤ 0 ∨ h ≤ 0 →
      estimateRows cols w h ca = 0) ∧
    estimateRows 10 1000 500 (1/2) = 3 ∧
    estimateRows 1 1000 10 (1/2) = 1 := by
  refine ⟨?_, ?_, ?_, ?_⟩
  · intro cols w h ca hc hw hh hca
    unfold estimateRows goRound
    rw [if_neg (by omega)]
    simp only []
    have hr : (0 : ℚ) ≤ (cols : ℚ) * ((h : ℚ) / (w : ℚ)) * ca := by
      apply mul_nonneg
      apply mul_nonneg
      · exact_mod_cast hc.le
      · apply div_nonneg <;> [exact_mod_cast hh.le; exact_mod_cast hw.le]
      · exact hca
    set r : ℚ := (cols : ℚ) * ((h : ℚ) / (w : ℚ)) * ca with hrdef
    by_cases hlt : r < 1
    · rw [if_pos hlt, if_pos (by norm_num), if_pos hr]
      have h1 : (⌊(1 : ℚ) + 1/2⌋ : Int) = 1 := by norm_num
      rw [h1]
      have hub : ⌊r + 1/2⌋ < 2 := by
        rw [Int.floor_lt]
        push_cast
        linarith
      have := Int.le_max_left 1 (⌊r + 1/2⌋)
      omega
    · push_neg at hlt
      rw [if_neg (show ¬(r < 1) from by linarith), if_pos hr]
      have hlb : 1 ≤ ⌊r + 1/2⌋ := by
        rw [Int.le_floor]
        push_cast
        linarith
      exact (max_eq_right hlb).symm
  · intro cols w h ca hdeg
    unfold estimateRows
    rw [if_pos (by omega)]
  · unfold estimateRows goRound
    norm_num
  · unfold estimateRows goRound
    norm_num

/-- Witness for C5: the amended rounding rule applied at the spec's
worked example. -/
theorem estimateRows_round_half_away_witness :
    estimateRows 10 1000 500 (1/2) =
      max 1 (goRound (((10 : Int) : ℚ) * (((500 : Int) : ℚ) / ((1000 : Int) : ℚ)) * (1/2))) :=
  estimateRows_round_half_away.1 10 1000 500 (1/2) (by decide) (by decide) (by decide)
    (by norm_num)

/-- Case analysis of one `renderGrid` page iteration: item and image
counts, the skip condition, and every field of a rendered page. -/
theorem processPage_spec (gc tc tp pp : Nat) (a : ℚ) (dec : α → Option β) (s : List α) :
    (processPage gc tc tp pp a dec s).numItems = s.length ∧
    (processPage gc tc tp pp a dec s).numImages = (s.filterMap dec).length ∧
    ((s.filterMap dec).length = 0 ↔ (processPage gc tc tp pp a dec s).rendered = none) ∧
    ∀ r, (processPage gc tc tp pp a dec s).rendered = some r →
      r.pageCols = min gc (s.filterMap dec).length ∧
      r.widthPx = r.pageCols * tp + (r.pageCols - 1) * pp ∧
      r.heightPx = ((s.filterMap dec).length + r.pageCols - 1) / r.pageCols * tp +
        (((s.filterMap dec).length + r.pageCols - 1) / r.pageCols - 1) * pp ∧
      r.colsCells = r.pageCols * tc ∧
      r.rowsCells = estimateRows r.colsCells r.widthPx r.heightPx a ∧
      r.newlines = advanceCursorNewlines r.rowsCells := by
  by_cases hL : (s.filterMap dec).length = 0
  · unfold processPage
    rw [if_pos hL]
    refine ⟨rfl, hL.symm, ⟨fun _ => rfl, fun _ => hL⟩, ?_⟩
    intro r hr
    simp at hr
  · unfold processPage
    dsimp only
    rw [if_neg hL]
    rcases hbg : buildGridPNG (s.filterMap dec)
        (if gc > (s.filterMap dec).length then (s.filterMap dec).length else gc) tp pp
      with e | ⟨w0, h0, pl0⟩
    · unfold buildGridPNG at hbg
      rw [if_neg hL] at hbg
      simp at hbg
    · unfold buildGridPNG at hbg
      rw [if_neg hL] at hbg
      dsimp only at hbg
      simp only [Except.ok.injEq, Prod.mk.injEq] at hbg
      obtain ⟨hw, hh, -⟩ := hbg
      refine ⟨rfl, rfl, ⟨fun h => absurd h hL, fun h => by simp at h⟩, ?_⟩
      intro r hr
      simp only [Option.some.injEq] at hr
      subst hr
      refine ⟨?_, ?_, ?_, rfl, rfl, rfl⟩
      · dsimp only
        rw [Nat.min_def]
        split_ifs <;> omega
      · exact hw.symm
      · exact hh.symm

/-- `estimateRows` never returns less than one row on positive inputs. -/
theorem estimateRows_ge_one (cols w h : Int) (a : ℚ)
    (hc : 0 < cols) (hw : 0 < w) (hh : 0 < h) :
    1 ≤ estimateRows cols w h a := by
  unfold estimateRows goRound
  rw [if_neg (by omega)]
  dsimp only
  set r : ℚ := (cols : ℚ) * ((h : ℚ) / (w : ℚ)) * a with hr
  by_cases hlt : r < 1
  · rw [if_pos hlt, if_pos (by norm_num)]
    have : (⌊(1 : ℚ) + 1/2⌋ : Int) = 1 := by norm_num
    omega
  · push_neg at hlt
    rw [if_neg (show ¬(r < 1) from by linarith), if_pos (by linarith)]
    rw [Int.le_floor]
    push_cast
    linarith

/-- The pages the driver loop emits are exactly the processed page
slices. -/
theorem mem_renderGridLoop_iff (gc tc tp pp : Nat) (a : ℚ) (dec : α → Option β)
    (items : List α) (ps : Nat) (p : PageOut) :
    p ∈ renderGridLoop gc tc tp pp a dec items ps ↔
      ∃ s ∈ paginate ps items, processPage gc tc tp pp a dec s = p := by
  simp [renderGridLoop, List.mem_map]

/-- Counterexample for C6 as stated: with two items in the page but only
one decoding successfully, the compositor uses
`min(gridCols, decodedImages) = 1`, not `min(gridCols, itemsInPage) = 2`. -/
theorem renderGrid_pageCols_cex :
    ((renderGridLoop 2 1 64 0 (1/2) decodeFirstOnly [0, 1] 2).map
      fun p => (p.numItems, p.rendered.map RenderedPage.pageCols)) = [(2, some 1)] ∧
    (1 : Nat) ≠ min 2 2 := by
  constructor
  · simp [renderGridLoop, paginate, processPage, buildGridPNG, decodeFirstOnly]
  · decide

/-- **C6 (amended).** The column count used for compositing a page equals
`min(configuredColumns, successfully decoded images in that page)` (which
equals `min(configuredColumns, itemsInThisPage)` only when every item of
the page decodes). -/
theorem renderGrid_pageCols_min :
    ∀ (α β : Type) (gc tc tp pp : Nat) (a : ℚ) (dec : α → Option β)
      (items : List α) (ps : Nat),
      ∀ p ∈ renderGridLoop gc tc tp pp a dec items ps, ∀ r, p.rendered = some r →
        r.pageCols = min gc p.numImages := by
  intro α β gc tc tp pp a dec items ps p hp r hr
  obtain ⟨s, hs, hps⟩ := (mem_renderGridLoop_iff gc tc tp pp a dec items ps p).mp hp
  subst hps
  obtain ⟨-, hnum, -, hfields⟩ := processPage_spec gc tc tp pp a dec s
  rw [hnum]
  exact (hfields r hr).1

/-- Witness for C6: a one-item page rendered with one column. -/
theorem renderGrid_pageCols_min_witness :
    RenderedPage.pageCols ⟨1, 64, 64, 1, 1, 2⟩ =
      min 1 (PageOut.numImages ⟨1, 1, some ⟨1, 64, 64, 1, 1, 2⟩⟩) :=
  renderGrid_pageCols_min Nat Unit 1 1 64 0 (1/2) (fun _ => some ()) [0] 1
    ⟨1, 1, some ⟨1, 64, 64, 1, 1, 2⟩⟩
    (by
      have hpp : processPage 1 1 64 0 (1/2) (fun _ : Nat => some ()) [0] =
          ⟨1, 1, some ⟨1, 64, 64, 1, 1, 2⟩⟩ := by
        have hfm : List.filterMap (fun _ : Nat => some ()) [0] = [()] := rfl
        unfold processPage buildGridPNG
        rw [hfm]
        norm_num [estimateRows, goRound, advanceCursorNewlines]
      have hpag : paginate 1 ([0] : List Nat) = [[0]] := by
        rw [paginate, dif_neg (by decide)]
        simp [paginate]
      simp only [renderGridLoop, hpag, List.map_cons, List.map_nil, hpp]
      exact List.mem_singleton_self _)
    ⟨1, 64, 64, 1, 1, 2⟩ rfl

/-- **C7.** Compositing an empty image list fails, and the driver never
reaches that case: a page with zero decoded images is skipped (no
transmission) while the loop still visits every page, and a page with at
least one decoded image is always transmitted. -/
theorem composeEmpty_fails_and_pages_skip :
    (∀ (α : Type) (cols tp pp : Nat),
      buildGridPNG ([] : List α) cols tp pp = Except.error "no images") ∧
    (∀ (α β : Type) (gc tc tp pp : Nat) (a : ℚ) (dec : α → Option β)
        (items : List α) (ps : Nat),
      (∀ p ∈ renderGridLoop gc tc tp pp a dec items ps,
        (p.numImages = 0 → p.rendered = none) ∧ (p.numImages ≠ 0 → p.rendered ≠ none)) ∧
      (renderGridLoop gc tc tp pp a dec items ps).length = (paginate ps items).length) := by
  constructor
  · intro α cols tp pp
    simp [buildGridPNG]
  · intro α β gc tc tp pp a dec items ps
    constructor
    · intro p hp
      obtain ⟨s, hs, hps⟩ := (mem_renderGridLoop_iff gc tc tp pp a dec items ps p).mp hp
      subst hps
      obtain ⟨-, hnum, hiff, -⟩ := processPage_spec gc tc tp pp a dec s
      constructor
      · intro h0
        rw [hnum] at h0
        exact hiff.mp h0
      · intro hne hre
        rw [hnum] at hne
        exact hne (hiff.mpr hre)
    · simp [renderGridLoop]

/-- Witness for C7: a page whose single item fails to decode is skipped. -/
theorem composeEmpty_fails_and_pages_skip_witness :
    (⟨1, 0, none⟩ : PageOut).rendered = none :=
  (((composeEmpty_fails_and_pages_skip.2 Nat Unit 2 1 64 0 (1/2) decodeFirstOnly
      [1] 1).1
    ⟨1, 0, none⟩
    (by
      have hpp : processPage 2 1 64 0 (1/2) decodeFirstOnly [1] = ⟨1, 0, none⟩ := by
        have hfm : List.filterMap decodeFirstOnly [1] = [] := rfl
        unfold processPage
        rw [hfm]
        simp
      have hpag : paginate 1 ([1] : List Nat) = [[1]] := by
        rw [paginate, dif_neg (by decide)]
        simp [paginate]
      simp only [renderGridLoop, hpag, List.map_cons, List.map_nil, hpp]
      exact List.mem_singleton_self _)).1 rfl)

/-- Counterexample for C8 as stated: `ParseFloat` accepts the env value
`nan`; NaN fails both range comparisons (`NaN < 0.1` and `NaN > 2` are
both false), so `CellAspectRatio` returns NaN, not the supplied default. -/
theorem cellAspectRatio_nan_cex :
    CellAspectRatio "nan" (1/2) = GoFloat.nan ∧
    GoFloat.nan ≠ GoFloat.fin (1/2) := by
  constructor
  · rfl
  · decide

/-- **C8 (amended).** The bounded fallback holds for everything except
NaN: an empty or unparsable value, a parsed finite value outside
`[0.1, 2]`, or an infinity yields the supplied default; a parsed finite
value inside the range — decimal or hexadecimal — is returned as-is; but
the value `nan` parses and makes `CellAspectRatio` return NaN rather
than the default.  Concretely `"3.0"` falls back, `"0x1p-2"` yields
`1/4`, and `"nan"` yields NaN. -/
theorem cellAspectRatio_bounded_fallback :
    (∀ (raw : String) (d : ℚ), trimStr raw = "" → CellAspectRatio raw d = .fin d) ∧
    (∀ (raw : String) (d : ℚ), parseGoFloat (trimStr raw) = none →
      CellAspectRatio raw d = .fin d) ∧
    (∀ (raw : String) (d v : ℚ), parseGoFloat (trimStr raw) = some (.fin v) →
      v < 1/10 ∨ v > 2 → CellAspectRatio raw d = .fin d) ∧
    (∀ (raw : String) (d v : ℚ), parseGoFloat (trimStr raw) = some (.fin v) →
      1/10 ≤ v → v ≤ 2 → CellAspectRatio raw d = .fin v) ∧
    (∀ (raw : String) (d : ℚ) (b : Bool), parseGoFloat (trimStr raw) = some (.inf b) →
      CellAspectRatio raw d = .fin d) ∧
    (∀ (raw : String) (d : ℚ), parseGoFloat (trimStr raw) = some .nan →
      CellAspectRatio raw d = .nan) ∧
    CellAspectRatio "3.0" (1/2) = .fin (1/2) ∧
    CellAspectRatio "0x1p-2" (1/2) = .fin (1/4) ∧
    CellAspectRatio "nan" (1/2) = .nan := by
  have hempty : parseGoFloat "" = none := by
    rw [parseGoFloat, (by decide : parseFloatRep "" = none)]
    rfl
  have h1 : ∀ (raw : String) (d : ℚ), trimStr raw = "" →
      CellAspectRatio raw d = .fin d := by
    intro raw d h
    unfold CellAspectRatio
    dsimp only
    rw [h]
    rw [if_pos rfl]
  have h3 : ∀ (raw : String) (d v : ℚ), parseGoFloat (trimStr raw) = some (.fin v) →
      v < 1/10 ∨ v > 2 → CellAspectRatio raw d = .fin d := by
    intro raw d v hp hout
    by_cases ht : trimStr raw = ""
    · exact h1 raw d ht
    · unfold CellAspectRatio
      dsimp only
      rw [if_neg ht, hp]
      dsimp only
      rw [if_pos (by
        simp only [GoFloat.ltQ, GoFloat.gtQ, Bool.or_eq_true, decide_eq_true_eq]
        exact hout)]
  have h4 : ∀ (raw : String) (d v : ℚ), parseGoFloat (trimStr raw) = some (.fin v) →
      1/10 ≤ v → v ≤ 2 → CellAspectRatio raw d = .fin v := by
    intro raw d v hp hge hle
    by_cases ht : trimStr raw = ""
    · rw [ht, hempty] at hp
      simp at hp
    · unfold CellAspectRatio
      dsimp only
      rw [if_neg ht, hp]
      dsimp only
      rw [if_neg (by
        simp only [GoFloat.ltQ, GoFloat.gtQ, Bool.or_eq_true, decide_eq_true_eq]
        push_neg
        exact ⟨hge, hle⟩)]
  have h6 : ∀ (raw : String) (d : ℚ), parseGoFloat (trimStr raw) = some .nan →
      CellAspectRatio raw d = .nan := by
    intro raw d hp
    by_cases ht : trimStr raw = ""
    · rw [ht, hempty] at hp
      simp at hp
    · unfold CellAspectRatio
      dsimp only
      rw [if_neg ht, hp]
      dsimp only
      rw [if_neg (by simp [GoFloat.ltQ, GoFloat.gtQ])]
  refine ⟨h1, ?_, h3, h4, ?_, h6, ?_, ?_, ?_⟩
  · intro raw d hp
    by_cases ht : trimStr raw = ""
    · exact h1 raw d ht
    · unfold CellAspectRatio
      dsimp only
      rw [if_neg ht, hp]
  · intro raw d b hp
    by_cases ht : trimStr raw = ""
    · rw [ht, hempty] at hp
      simp at hp
    · unfold CellAspectRatio
      dsimp only
      rw [if_neg ht, hp]
      dsimp only
      rw [if_pos (by simp [GoFloat.ltQ, GoFloat.gtQ, Bool.or_not_self])]
  · have hrep : parseFloatRep "3.0" = some (.dec false 30 1 false 0) := by decide
    have hval : floatOfRep (.dec false 30 1 false 0) = .fin 3 := by
      simp only [floatOfRep]
      norm_num
    have hparse : parseGoFloat "3.0" = some (.fin 3) := by
      rw [parseGoFloat, hrep, Option.map_some', hval]
    have htrim : trimStr "3.0" = "3.0" := by decide
    exact h3 "3.0" (1/2) 3 (by rw [htrim]; exact hparse) (Or.inr (by norm_num))
  · have hrep : parseFloatRep "0x1p-2" = some (.hex false 1 0 true 2) := by decide
    have hval : floatOfRep (.hex false 1 0 true 2) = .fin (1/4) := by
      simp only [floatOfRep]
      norm_num
    have hparse : parseGoFloat "0x1p-2" = some (.fin (1/4)) := by
      rw [parseGoFloat, hrep, Option.map_some', hval]
    have htrim : trimStr "0x1p-2" = "0x1p-2" := by decide
    exact h4 "0x1p-2" (1/2) (1/4) (by rw [htrim]; exact hparse) (by norm_num)
      (by norm_num)
  · have hrep : parseFloatRep "nan" = some .nan := by decide
    have hparse : parseGoFloat "nan" = some .nan := by
      rw [parseGoFloat, hrep]
      rfl
    have htrim : trimStr "nan" = "nan" := by decide
    exact h6 "nan" (1/2) (by rw [htrim]; exact hparse)

/-- Witness for C8: the empty override value yields the default. -/
theorem cellAspectRatio_bounded_fallback_witness :
    CellAspectRatio "" (1/2) = GoFloat.fin (1/2) :=
  cellAspectRatio_bounded_fallback.1 "" (1/2) (by decide)

/-- **C9.** `advanceCursor` writes `rows + 1` newlines, and every page the
driver renders has an estimated row height of at least one, so the blank
lines emitted after a page always number exactly `rowHeight + 1`. -/
theorem advanceCursor_rows_plus_one :
    (∀ rows : Int, 1 ≤ rows → advanceCursorNewlines rows = rows.toNat + 1) ∧
    (∀ (α β : Type) (gc tc tp pp : Nat) (a : ℚ) (dec : α → Option β)
      (items : List α) (ps : Nat), 1 ≤ gc → 1 ≤ tc → 1 ≤ tp →
      ∀ p ∈ renderGridLoop gc tc tp pp a dec items ps, ∀ r, p.rendered = some r →
        1 ≤ r.rowsCells ∧ r.newlines = r.rowsCells.toNat + 1) := by
  have hadv : ∀ rows : Int, 1 ≤ rows → advanceCursorNewlines rows = rows.toNat + 1 := by
    intro rows h1
    unfold advanceCursorNewlines
    rw [if_neg (by omega)]
  refine ⟨hadv, ?_⟩
  intro α β gc tc tp pp a dec items ps hgc htc htp p hp r hr
  obtain ⟨s, hs, hps⟩ := (mem_renderGridLoop_iff gc tc tp pp a dec items ps p).mp hp
  subst hps
  obtain ⟨-, -, hiff, hfields⟩ := processPage_spec gc tc tp pp a dec s
  obtain ⟨hpc, hw, hh, hcc, hrc, hnl⟩ := hfields r hr
  have hL : (s.filterMap dec).length ≠ 0 := by
    intro h0
    rw [hiff.mp h0] at hr
    simp at hr
  have hpc1 : 1 ≤ r.pageCols := by omega
  have hw1 : 1 ≤ r.widthPx := by
    rw [hw]
    have : 1 * 1 ≤ r.pageCols * tp := Nat.mul_le_mul hpc1 htp
    omega
  have hrows1 : 1 ≤ ((s.filterMap dec).length + r.pageCols - 1) / r.pageCols :=
    (Nat.one_le_div_iff (by omega)).mpr (by omega)
  have hh1 : 1 ≤ r.heightPx := by
    rw [hh]
    have := Nat.mul_le_mul hrows1 htp
    omega
  have hcc1 : 1 ≤ r.colsCells := by
    rw [hcc]
    have := Nat.mul_le_mul hpc1 htc
    omega
  have hge : 1 ≤ r.rowsCells := by
    rw [hrc]
    exact estimateRows_ge_one _ _ _ a (by exact_mod_cast hcc1) (by exact_mod_cast hw1)
      (by exact_mod_cast hh1)
  exact ⟨hge, by rw [hnl, hadv r.rowsCells hge]⟩

/-- Witness for C9: six estimated rows yield seven blank lines. -/
theorem advanceCursor_rows_plus_one_witness :
    advanceCursorNewlines 6 = (6 : Int).toNat + 1 :=
  advanceCursor_rows_plus_one.1 6 (by decide)

/-- **C10.** Both encoders are no-ops at their public interface on a nil
writer or an empty payload: nothing at all is written. -/
theorem encoders_noop_on_degenerate :
    (∀ (id : Nat) (png : List Nat) (cols rows : Int),
      SendKittyPNG false id png cols rows = []) ∧
    (∀ (b : Bool) (id : Nat) (cols rows : Int), SendKittyPNG b id [] cols rows = []) ∧
    (∀ f : ItermFile, SendItermInline false f = []) ∧
    (∀ (b : Bool) (name : String) (w h : Int) (st : Bool),
      SendItermInline b ⟨name, [], w, h, st⟩ = []) := by
  refine ⟨?_, ?_, ?_, ?_⟩ <;> intros <;> simp [SendKittyPNG, SendItermInline]

end Metcli
